import Mathlib

/-!
Shallow embedding of the marketplace search aggregator (src/marketplace.py,
src/models.py) and proofs about its spec.

Modelling choices:
- Python dicts (the two metadata caches, the per-query item lists and the
  first-occurrence canonical map) are association lists, observed only through
  lookup, exactly as the source observes them through `get`/`[]`/`setdefault`.
  Overwriting insert is modelled by prepending (lookup sees the newest binding);
  `setdefault` inserts only when the key is absent.
- The HTTP layer (httpx client, headers, app version) is the external
  PageFetcher collaborator: a function from the request parameters the code
  sends (keywords, optional next_page token) to a decoded page or an error.
  JSON-decode failures of the whole response are folded into the generic
  error case, matching the source's blanket `except Exception` handler.
- Per-item validation (`MarketplaceItem.model_validate`) is external: a raw
  payload item is `Option MarketplaceItem`, `none` for an invalid payload that
  the source logs and skips.
- `price.amount` is a Python float used only for display; it is modelled
  opaquely as the text it renders to (`Option String`), since no behaviour
  depends on its numeric value.
- Two ghost observation logs are threaded through the state and influence no
  control flow: `trace` records one entry per HTTP request issued (query,
  next_page parameter), `processedLog` records each validated item in
  processing order together with the query it was fetched for. They exist so
  temporal and ordering properties can be stated.
- The write-only `next_pages_by_query` / `next_section_type_by_query` dicts of
  the source are only ever logged, never read; they are not modelled.
-/

namespace Marketplace

/-- Association-list lookup; models Python `dict.get` (first binding wins,
newer bindings are prepended). -/
def alookup {α : Type} : List (String × α) → String → Option α
  | [], _ => none
  | (k, v) :: rest, key => if k = key then some v else alookup rest key

/-- Overwriting insert; models Python `d[k] = v` as observed through lookup. -/
def cachePut {α : Type} (m : List (String × α)) (k : String) (v : α) :
    List (String × α) :=
  (k, v) :: m

/-- Insert only when absent; models Python `dict.setdefault(k, v)`. -/
def ddSetdefault {α : Type} (m : List (String × α)) (k : String) (v : α) :
    List (String × α) :=
  match alookup m k with
  | some _ => m
  | none => (k, v) :: m

/-- models src/models.py `Reserved`. -/
structure Reserved where
  flag : Bool := false
deriving DecidableEq, Repr

/-- models src/models.py `Price`; `amount` is the rendered text of the float. -/
structure Price where
  amount : Option String := none
deriving DecidableEq, Repr

/-- models src/models.py `MarketplaceItem` with its pydantic defaults. -/
structure MarketplaceItem where
  title : String := "No title"
  id : String := ""
  web_slug : String := ""
  description : String := ""
  reserved : Reserved := {}
  price : Price := {}
deriving DecidableEq, Repr

/-- Splits a character list into maximal non-whitespace runs, accumulating
the current (reversed) run; models Python `s.split()`. -/
def wordsAux : List Char → List Char → List String
  | [], acc => if acc = [] then [] else [String.mk acc.reverse]
  | c :: cs, acc =>
    if c.isWhitespace then
      if acc = [] then wordsAux cs []
      else String.mk acc.reverse :: wordsAux cs []
    else wordsAux cs (c :: acc)

/-- The whitespace-separated words of a string; models Python `s.split()`. -/
def words (s : String) : List String :=
  wordsAux s.toList []

/-- Whitespace normalization; models Python `" ".join(s.split())`. -/
def normSpace (s : String) : String :=
  String.intercalate " " (words s)

/-- True when the string strips to empty, i.e. Python `not s.strip()`. -/
def isBlank (s : String) : Bool :=
  s.toList.all Char.isWhitespace

/-- models `format_item_markdown` (marketplace.py lines 50-61); the
`includeDescr` parameter is the process-wide INCLUDE_DESCRIPTION_IN_SEARCH. -/
def format_item_markdown (includeDescr : Bool) (item : MarketplaceItem) :
    Option String :=
  if item.reserved.flag = true then none
  else
    let title := normSpace item.title
    let price :=
      match item.price.amount with
      | some a => a ++ "€"
      | none => "N/A"
    let line := "- `" ++ item.id ++ "` " ++ title ++ " - " ++ price
    let line :=
      if includeDescr ∧ item.description ≠ "" then
        line ++ "\n  " ++ normSpace item.description
      else line
    some line

/-- Decoded constant item detail base URL used by the `link` tool. -/
def ITEM_BASE_URL : String := "https://es.wallapop.com/item/"

/-- Argument of the `link` tool: a list of ids, or any non-list value. -/
inductive IdsArg where
  | idList (l : List String)
  | nonList
deriving DecidableEq

/-- Per-id line construction of `link` (marketplace.py lines 71-83): cached
non-empty slug gives the URL line, a missing or empty cached slug gives the
unknown-id line. -/
def linkRender (cache : List (String × String)) : List String → List String
  | [] => []
  | i :: rest =>
    (match alookup cache i with
     | none => "- `" ++ i ++ "`: Unknown id. Run `search` first to populate the cache."
     | some slug =>
       if slug = "" then
         "- `" ++ i ++ "`: Unknown id. Run `search` first to populate the cache."
       else
         "- `" ++ i ++ "`: " ++ ITEM_BASE_URL ++ slug) :: linkRender cache rest

/-- models the `link` tool (marketplace.py lines 64-85); it only reads the
slug cache, so the cache is an input and is not returned. -/
def link (cache : List (String × String)) : IdsArg → String
  | IdsArg.nonList => "Invalid item_ids: provide a non-empty list of ids"
  | IdsArg.idList ids =>
    if ids = [] then "Invalid item_ids: provide a non-empty list of ids"
    else String.intercalate "\n" (linkRender cache ids)

/-- One decoded successful page: parse results of `data.section.payload.items`
(`none` = invalid raw item, skipped), `meta.next_page`, `meta.next_section_type`. -/
structure PageData where
  items : List (Option MarketplaceItem) := []
  next_page : Option String := none
  next_section_type : Option String := none

/-- Outcome of one page fetch by the external PageFetcher collaborator. -/
inductive FetchResult where
  | ok (d : PageData)
  | statusError (code : Nat) (text : String)
  | otherError (msg : String)

/-- The external PageFetcher: request parameters are the query keywords and
the optional `next_page` token (absent on page 1). -/
def Fetcher : Type := String → Option String → FetchResult

/-- Python falsiness of the continuation token (`not api_next_page`):
missing or empty string. -/
def tokFalsy : Option String → Bool
  | none => true
  | some s => s == ""

/-- Mutable state of one aggregation call plus the process-wide caches.
`trace` and `processedLog` are ghost observation logs (see file header). -/
structure SearchState where
  slugCache : List (String × String)
  descrCache : List (String × String)
  itemsByQuery : List (String × List MarketplaceItem)
  deduped : List (String × MarketplaceItem)
  trace : List (String × Option String)
  processedLog : List (String × MarketplaceItem)

/-- Appends an item to the per-query list of the first binding for `q`;
models `items_by_query[current_query].append(item)` (the key is always
present in reachable states, so the `[]` case is unreachable there). -/
def ibqAppend : List (String × List MarketplaceItem) → String → MarketplaceItem →
    List (String × List MarketplaceItem)
  | [], _, _ => []
  | (k, l) :: rest, q, it =>
    if k = q then (k, l ++ [it]) :: rest else (k, l) :: ibqAppend rest q it

/-- models `items_by_query.get(q, [])`. -/
def ibqGet (m : List (String × List MarketplaceItem)) (q : String) :
    List MarketplaceItem :=
  (alookup m q).getD []

/-- Processing of one raw item inside the page loop (marketplace.py lines
228-243): skip invalid payloads; for a valid item, write non-empty slug and
description to the caches when the id is non-empty, append to the per-query
list, and `setdefault` into the canonical first-occurrence map. -/
def processItem (q : String) (st : SearchState) (raw : Option MarketplaceItem) :
    SearchState :=
  match raw with
  | none => st
  | some item =>
    { st with
      slugCache :=
        if item.id ≠ "" ∧ item.web_slug ≠ "" then
          cachePut st.slugCache item.id item.web_slug
        else st.slugCache
      descrCache :=
        if item.id ≠ "" ∧ item.description ≠ "" then
          cachePut st.descrCache item.id item.description
        else st.descrCache
      itemsByQuery := ibqAppend st.itemsByQuery q item
      deduped :=
        if item.id ≠ "" then ddSetdefault st.deduped item.id item
        else st.deduped
      processedLog := st.processedLog ++ [(q, item)] }

/-- How one query's pagination loop ended: normally (with the final
continuation token and section sentinel), or aborting the whole call. -/
inductive QueryExit where
  | finished (tok sect : Option String)
  | aborted (msg : String)
deriving DecidableEq

/-- The per-query pagination loop (marketplace.py lines 191-275). `fuel` is
the number of remaining iterations of `range(1, pages + 1)`, `n` the current
page number, `tok`/`sect` the `api_next_page` / `next_section_type` variables. -/
def pageLoop (fetch : Fetcher) (q : String) :
    Nat → Nat → Option String → Option String → SearchState →
    SearchState × QueryExit
  | 0, _, tok, sect, st => (st, QueryExit.finished tok sect)
  | fuel + 1, n, tok, sect, st =>
    if n > 1 ∧ tokFalsy tok = true then
      (st, QueryExit.finished tok sect)
    else
      let tokParam := if n > 1 then tok else none
      let st1 : SearchState := { st with trace := st.trace ++ [(q, tokParam)] }
      match fetch q tokParam with
      | FetchResult.statusError code text =>
        (st1, QueryExit.aborted ("API Error: " ++ toString code ++ " - " ++ text))
      | FetchResult.otherError msg =>
        (st1, QueryExit.aborted ("An error occurred: " ++ msg))
      | FetchResult.ok d =>
        let st2 := d.items.foldl (processItem q) st1
        if d.next_section_type ≠ some "organic_search_results" then
          (st2, QueryExit.finished d.next_page d.next_section_type)
        else
          pageLoop fetch q fuel (n + 1) d.next_page d.next_section_type st2

/-- Sequential processing of the queries (marketplace.py lines 184-278);
`some msg` signals the fail-fast abort of the whole call. -/
def queryLoop (fetch : Fetcher) (pages : Nat) :
    List String → SearchState → SearchState × Option String
  | [], st => (st, none)
  | q :: rest, st =>
    match pageLoop fetch q pages 1 none (some "organic_search_results") st with
    | (st', QueryExit.aborted msg) => (st', some msg)
    | (st', QueryExit.finished _ _) => queryLoop fetch pages rest st'

/-- The collection phase of one aggregation call, started from the given
process-wide caches with per-call structures empty. -/
def collectPhase (fetch : Fetcher) (pages : Nat) (queries : List String)
    (slug0 descr0 : List (String × String)) : SearchState × Option String :=
  queryLoop fetch pages queries
    { slugCache := slug0
      descrCache := descr0
      itemsByQuery := queries.map (fun q => (q, []))
      deduped := []
      trace := []
      processedLog := [] }

/-- models `_iter_items_in_order`: queries in input order, each query's
collected items in arrival order. -/
def iterItemsInOrder (m : List (String × List MarketplaceItem)) :
    List String → List MarketplaceItem
  | [] => []
  | q :: rest => ibqGet m q ++ iterItemsInOrder m rest

/-- The final dedup pass (marketplace.py lines 295-303): skip empty ids and
already-seen ids, otherwise emit the canonical item from the first-occurrence
map. The `getD item` default is unreachable in states produced by the
collection phase, where every appended non-empty id is in the map. -/
def dedupPass (dd : List (String × MarketplaceItem)) :
    List MarketplaceItem → List String → List MarketplaceItem
  | [], _ => []
  | item :: rest, seen =>
    if item.id = "" then dedupPass dd rest seen
    else if item.id ∈ seen then dedupPass dd rest seen
    else (alookup dd item.id).getD item :: dedupPass dd rest (item.id :: seen)

/-- `ordered_unique_items` as computed from the collection-phase state. -/
def orderedUniqueItems (queries : List String) (st : SearchState) :
    List MarketplaceItem :=
  dedupPass st.deduped (iterItemsInOrder st.itemsByQuery queries) []

/-- models `", ".join(f"'{q}'" for q in queries)`. -/
def readableQueries (qs : List String) : String :=
  String.intercalate ", " (qs.map (fun q => "\x27" ++ q ++ "\x27"))

/-- Argument of `search`: the annotated list of strings, a bare string, or a
list that may contain non-string junk (filtered out by the source). -/
inductive QueryArg where
  | str (s : String)
  | ofList (l : List (Option String))
deriving DecidableEq

/-- Query normalization (marketplace.py lines 143-150): a bare string becomes
a singleton list unconditionally; a list keeps its non-blank strings. A list
element `none` stands for a non-string value. -/
def normalizeQueries : QueryArg → List String
  | QueryArg.str s => [s]
  | QueryArg.ofList l =>
    l.filterMap (fun e =>
      match e with
      | some q => if isBlank q then none else some q
      | none => none)

/-- Observable outcome of one aggregation call: the returned text, the
process-wide caches afterwards, and the ghost request trace. -/
structure SearchResult where
  output : String
  slugCache : List (String × String)
  descrCache : List (String × String)
  trace : List (String × Option String)

/-- models `_search` (marketplace.py lines 138-324) for one call: input
validation, sequential collection with fail-fast abort, final dedup,
formatting, and the no-results message. `pages` is the process-wide
SEARCH_PAGES_TO_FETCH, `includeDescr` the description-inclusion mode. -/
def searchAgg (fetch : Fetcher) (includeDescr : Bool) (pages : Int)
    (arg : QueryArg) (slug0 descr0 : List (String × String)) : SearchResult :=
  if pages < 1 then
    { output := "Invalid SEARCH_PAGES_TO_FETCH: must be >= 1"
      slugCache := slug0, descrCache := descr0, trace := [] }
  else if normalizeQueries arg = [] then
    { output := "Invalid query: provide a non-empty string or list of strings"
      slugCache := slug0, descrCache := descr0, trace := [] }
  else
    match collectPhase fetch pages.toNat (normalizeQueries arg) slug0 descr0 with
    | (st, some msg) =>
      { output := msg, slugCache := st.slugCache, descrCache := st.descrCache
        trace := st.trace }
    | (st, none) =>
      let ordered := orderedUniqueItems (normalizeQueries arg) st
      let blocks := ordered.filterMap (format_item_markdown includeDescr)
      if blocks = [] then
        { output := "No results found for " ++ readableQueries (normalizeQueries arg) ++ "."
          slugCache := st.slugCache, descrCache := st.descrCache, trace := st.trace }
      else
        { output := String.intercalate "\n" blocks
          slugCache := st.slugCache, descrCache := st.descrCache, trace := st.trace }

/-- The `ordered_unique_items` sequence of one aggregation call. -/
def searchOrderedUnique (fetch : Fetcher) (pages : Int) (arg : QueryArg)
    (slug0 descr0 : List (String × String)) : List MarketplaceItem :=
  orderedUniqueItems (normalizeQueries arg)
    (collectPhase fetch pages.toNat (normalizeQueries arg) slug0 descr0).1

/-- The error text the source formats for a failed fetch, `none` on success. -/
def errorOf : FetchResult → Option String
  | FetchResult.ok _ => none
  | FetchResult.statusError c t => some ("API Error: " ++ toString c ++ " - " ++ t)
  | FetchResult.otherError m => some ("An error occurred: " ++ m)

/-- Ghost projection: the items processed for query `q`, in processing order. -/
def logItemsFor (q : String) : List (String × MarketplaceItem) → List MarketplaceItem
  | [] => []
  | (q', it) :: rest =>
    if q' = q then it :: logItemsFor q rest else logItemsFor q rest

/-- Ghost projection: the chronologically first processed item with id `i`. -/
def logFirstWithId (i : String) : List (String × MarketplaceItem) →
    Option MarketplaceItem
  | [] => none
  | (_, it) :: rest => if it.id = i then some it else logFirstWithId i rest

/-- The non-empty ids of a list of items, in order. -/
def itemIds (l : List MarketplaceItem) : List String :=
  l.filterMap (fun it => if it.id = "" then none else some it.id)

/-- First-occurrence dedup of a list of ids, relative to already-seen ids.
Modelled from the spec wording: "the position of an id in the output is
determined by its first occurrence" in query-then-page-then-in-page order. -/
def firstOccurAux : List String → List String → List String
  | [], _ => []
  | i :: rest, seen =>
    if i ∈ seen then firstOccurAux rest seen
    else i :: firstOccurAux rest (i :: seen)

/-- First-occurrence dedup of a list of ids. -/
def firstOccur (l : List String) : List String :=
  firstOccurAux l []

/-- First of two options; `orDefault a b` is `a` unless `a` is `none`. -/
def orDefault {α : Type} : Option α → Option α → Option α
  | some s, _ => some s
  | none, b => b

/-- The last non-empty value of `f` over a list of items, if any. -/
def lastField (f : MarketplaceItem → String) : List MarketplaceItem → Option String
  | [] => none
  | it :: rest =>
    orDefault (lastField f rest) (if f it = "" then none else some (f it))

/-! Basic lemmas about the association-list operations. -/

theorem alookup_cachePut_self {α : Type} (m : List (String × α)) (k : String)
    (v : α) : alookup (cachePut m k v) k = some v := by
  simp [cachePut, alookup]

theorem alookup_cachePut_ne {α : Type} (m : List (String × α)) (k k' : String)
    (v : α) (h : k ≠ k') : alookup (cachePut m k v) k' = alookup m k' := by
  simp [cachePut, alookup, h]

theorem alookup_cachePut_isSome {α : Type} (m : List (String × α))
    (k k' : String) (v : α) (h : (alookup m k').isSome = true) :
    (alookup (cachePut m k v) k').isSome = true := by
  by_cases hk : k = k'
  · subst hk; simp [alookup_cachePut_self]
  · rw [alookup_cachePut_ne m k k' v hk]; exact h

theorem ddSetdefault_of_some {α : Type} {m : List (String × α)} {k : String}
    {w : α} (v : α) (h : alookup m k = some w) : ddSetdefault m k v = m := by
  simp [ddSetdefault, h]

theorem ddSetdefault_of_none {α : Type} {m : List (String × α)} {k : String}
    (v : α) (h : alookup m k = none) : ddSetdefault m k v = (k, v) :: m := by
  simp [ddSetdefault, h]

theorem alookup_ddSetdefault_ne {α : Type} (m : List (String × α))
    (k k' : String) (v : α) (h : k ≠ k') :
    alookup (ddSetdefault m k v) k' = alookup m k' := by
  cases hm : alookup m k with
  | some w => rw [ddSetdefault_of_some v hm]
  | none => rw [ddSetdefault_of_none v hm]; simp [alookup, h]

theorem alookup_ibqAppend_self (m : List (String × List MarketplaceItem))
    (q : String) (it : MarketplaceItem) :
    alookup (ibqAppend m q it) q = (alookup m q).map (fun l => l ++ [it]) := by
  induction m with
  | nil => rfl
  | cons p rest ih =>
    obtain ⟨k, l⟩ := p
    by_cases hk : k = q
    · subst hk; simp [ibqAppend, alookup]
    · simp [ibqAppend, alookup, hk, ih]

theorem alookup_ibqAppend_ne (m : List (String × List MarketplaceItem))
    (q q' : String) (it : MarketplaceItem) (h : q ≠ q') :
    alookup (ibqAppend m q it) q' = alookup m q' := by
  induction m with
  | nil => rfl
  | cons p rest ih =>
    obtain ⟨k, l⟩ := p
    by_cases hk : k = q
    · subst hk; simp [ibqAppend, alookup, h]
    · simp [ibqAppend, alookup, hk, ih]

theorem alookup_ibqAppend_isSome (m : List (String × List MarketplaceItem))
    (q q' : String) (it : MarketplaceItem) :
    (alookup (ibqAppend m q it) q').isSome = (alookup m q').isSome := by
  by_cases hq : q = q'
  · subst hq; rw [alookup_ibqAppend_self]; cases alookup m q <;> rfl
  · rw [alookup_ibqAppend_ne m q q' it hq]

theorem alookup_initIbq_of_mem (qs : List String) (q : String) (h : q ∈ qs) :
    alookup (qs.map (fun x => (x, ([] : List MarketplaceItem)))) q = some [] := by
  induction qs with
  | nil => cases h
  | cons x rest ih =>
    by_cases hx : x = q
    · subst hx; simp [alookup]
    · have : q ∈ rest := by
        cases h with
        | head => exact absurd rfl hx
        | tail _ h2 => exact h2
      simp [alookup, hx, ih this]

theorem alookup_initIbq_val (qs : List String) (q : String)
    (l : List MarketplaceItem)
    (h : alookup (qs.map (fun x => (x, ([] : List MarketplaceItem)))) q = some l) :
    l = [] := by
  induction qs with
  | nil => simp [alookup] at h
  | cons x rest ih =>
    by_cases hx : x = q
    · subst hx; simp [alookup] at h; exact h
    · simp [alookup, hx] at h; exact ih h

/-! Lemmas about the ghost observation logs. -/

theorem orDefault_none {α : Type} (x : Option α) : orDefault x none = x := by
  cases x <;> rfl

theorem logItemsFor_append (q : String) (l : List (String × MarketplaceItem))
    (q' : String) (it : MarketplaceItem) :
    logItemsFor q (l ++ [(q', it)])
      = logItemsFor q l ++ (if q' = q then [it] else []) := by
  induction l with
  | nil => by_cases h : q' = q <;> simp [logItemsFor, h]
  | cons p rest ih =>
    obtain ⟨qp, itp⟩ := p
    by_cases h : qp = q <;> simp [logItemsFor, h, ih]

theorem logFirstWithId_append (i : String) (l : List (String × MarketplaceItem))
    (q : String) (it : MarketplaceItem) :
    logFirstWithId i (l ++ [(q, it)])
      = orDefault (logFirstWithId i l)
          (if it.id = i then some it else none) := by
  induction l with
  | nil => by_cases h : it.id = i <;> simp [logFirstWithId, h, orDefault]
  | cons p rest ih =>
    obtain ⟨qp, itp⟩ := p
    by_cases h : itp.id = i <;> simp [logFirstWithId, h, ih, orDefault]

theorem logFirstWithId_id (i : String) (l : List (String × MarketplaceItem))
    (v : MarketplaceItem) (h : logFirstWithId i l = some v) : v.id = i := by
  induction l with
  | nil => simp [logFirstWithId] at h
  | cons p rest ih =>
    obtain ⟨qp, itp⟩ := p
    by_cases hp : itp.id = i
    · simp [logFirstWithId, hp] at h; rw [← h]; exact hp
    · simp [logFirstWithId, hp] at h; exact ih h

theorem mem_logItemsFor_firstWithId (q : String)
    (l : List (String × MarketplaceItem)) (it : MarketplaceItem)
    (h : it ∈ logItemsFor q l) : ∃ v, logFirstWithId it.id l = some v := by
  induction l with
  | nil => simp [logItemsFor] at h
  | cons p rest ih =>
    obtain ⟨qp, itp⟩ := p
    by_cases hid : itp.id = it.id
    · exact ⟨itp, by simp [logFirstWithId, hid]⟩
    · have hit : it ∈ logItemsFor q rest := by
        by_cases hq : qp = q
        · simp [logItemsFor, hq] at h
          cases h with
          | inl he => exact absurd (congrArg MarketplaceItem.id he.symm) hid
          | inr h2 => exact h2
        · simpa [logItemsFor, hq] using h
      obtain ⟨v, hv⟩ := ih hit
      exact ⟨v, by simp [logFirstWithId, hid, hv]⟩

/-! The collection-phase loop invariant: the canonical map holds the
chronologically first item for each non-empty id, and each per-query list
holds exactly the items processed for that query, in processing order. -/

/-- Loop invariant of the collection phase, relative to the ghost log. -/
structure Inv (st : SearchState) : Prop where
  dd : ∀ k, k ≠ "" → alookup st.deduped k = logFirstWithId k st.processedLog
  ibq : ∀ q, (alookup st.itemsByQuery q).isSome = true →
    ibqGet st.itemsByQuery q = logItemsFor q st.processedLog

theorem processItem_keys (q : String) (st : SearchState)
    (raw : Option MarketplaceItem) (q' : String) :
    (alookup (processItem q st raw).itemsByQuery q').isSome
      = (alookup st.itemsByQuery q').isSome := by
  cases raw with
  | none => rfl
  | some item => exact alookup_ibqAppend_isSome st.itemsByQuery q q' item

theorem processItem_inv (q : String) (st : SearchState)
    (raw : Option MarketplaceItem) (h : Inv st) :
    Inv (processItem q st raw) := by
  cases raw with
  | none => exact h
  | some item =>
    constructor
    · intro k hk
      have hdd := h.dd k hk
      show alookup (if item.id ≠ "" then ddSetdefault st.deduped item.id item
            else st.deduped) k
          = logFirstWithId k (st.processedLog ++ [(q, item)])
      rw [logFirstWithId_append]
      by_cases hid : item.id = ""
      · have hik : item.id ≠ k := by rw [hid]; exact fun e => hk e.symm
        rw [if_neg (not_not_intro hid), if_neg hik, orDefault_none]
        exact hdd
      · rw [if_pos hid]
        by_cases hik : item.id = k
        · subst hik
          cases hl : alookup st.deduped item.id with
          | none =>
            rw [ddSetdefault_of_none item hl]
            rw [hl] at hdd
            simp [alookup, ← hdd, orDefault]
          | some w =>
            rw [ddSetdefault_of_some item hl, hl]
            rw [hl] at hdd
            simp [← hdd, orDefault]
        · rw [alookup_ddSetdefault_ne _ _ _ _ hik, if_neg hik, orDefault_none]
          exact hdd
    · intro q0 hq0
      have hq0b : (alookup (ibqAppend st.itemsByQuery q item) q0).isSome = true := hq0
      rw [alookup_ibqAppend_isSome] at hq0b
      have hold := h.ibq q0 hq0b
      show ibqGet (ibqAppend st.itemsByQuery q item) q0
          = logItemsFor q0 (st.processedLog ++ [(q, item)])
      rw [logItemsFor_append]
      by_cases hqq : q = q0
      · subst hqq
        unfold ibqGet
        rw [alookup_ibqAppend_self]
        cases hl : alookup st.itemsByQuery q with
        | none => rw [hl] at hq0b; simp at hq0b
        | some l =>
          unfold ibqGet at hold
          rw [hl] at hold
          simp only [Option.getD_some] at hold
          simp [hold]
      · unfold ibqGet
        rw [alookup_ibqAppend_ne _ _ _ _ hqq, if_neg hqq, List.append_nil]
        exact hold

theorem foldl_processItem_keys (q : String) (l : List (Option MarketplaceItem)) :
    ∀ (st : SearchState) (q' : String),
    (alookup (l.foldl (processItem q) st).itemsByQuery q').isSome
      = (alookup st.itemsByQuery q').isSome := by
  induction l with
  | nil => intro st q'; rfl
  | cons raw rest ih =>
    intro st q'
    simp only [List.foldl_cons]
    rw [ih (processItem q st raw) q', processItem_keys]

theorem foldl_processItem_inv (q : String) (l : List (Option MarketplaceItem)) :
    ∀ (st : SearchState), Inv st → Inv (l.foldl (processItem q) st) := by
  induction l with
  | nil => intro st h; exact h
  | cons raw rest ih =>
    intro st h
    simp only [List.foldl_cons]
    exact ih (processItem q st raw) (processItem_inv q st raw h)

/-- The record update writing only the ghost `trace` preserves the invariant. -/
theorem inv_setTrace (st : SearchState) (t : List (String × Option String))
    (h : Inv st) : Inv { st with trace := t } :=
  ⟨h.dd, h.ibq⟩

theorem pageLoop_inv (fetch : Fetcher) (q : String) :
    ∀ (fuel n : Nat) (tok sect : Option String) (st : SearchState), Inv st →
    Inv (pageLoop fetch q fuel n tok sect st).1 ∧
    ∀ q', (alookup (pageLoop fetch q fuel n tok sect st).1.itemsByQuery q').isSome
        = (alookup st.itemsByQuery q').isSome := by
  intro fuel
  induction fuel with
  | zero =>
    intro n tok sect st h
    exact ⟨h, fun q' => rfl⟩
  | succ fuel ih =>
    intro n tok sect st h
    rw [pageLoop]
    split
    · exact ⟨h, fun q' => rfl⟩
    · cases hf : fetch q (if n > 1 then tok else none) with
      | statusError code text =>
        simp only [hf]
        exact ⟨inv_setTrace st _ h, fun q' => by simp⟩
      | otherError msg =>
        simp only [hf]
        exact ⟨inv_setTrace st _ h, fun q' => by simp⟩
      | ok d =>
        simp only [hf]
        split
        · constructor
          · exact foldl_processItem_inv q d.items _ (inv_setTrace st _ h)
          · intro q'
            exact foldl_processItem_keys q d.items _ q'
        · have hstep := foldl_processItem_inv q d.items
            { st with trace := st.trace ++ [(q, if n > 1 then tok else none)] }
            (inv_setTrace st _ h)
          obtain ⟨h1, h2⟩ := ih (n + 1) d.next_page d.next_section_type _ hstep
          refine ⟨h1, fun q' => ?_⟩
          rw [h2 q', foldl_processItem_keys]

theorem queryLoop_inv (fetch : Fetcher) (pages : Nat) :
    ∀ (qs : List String) (st : SearchState), Inv st →
    Inv (queryLoop fetch pages qs st).1 ∧
    ∀ q', (alookup (queryLoop fetch pages qs st).1.itemsByQuery q').isSome
        = (alookup st.itemsByQuery q').isSome := by
  intro qs
  induction qs with
  | nil => intro st h; exact ⟨h, fun q' => rfl⟩
  | cons q rest ih =>
    intro st h
    rw [queryLoop]
    obtain ⟨h1, h2⟩ :=
      pageLoop_inv fetch q pages 1 none (some "organic_search_results") st h
    cases hp : pageLoop fetch q pages 1 none (some "organic_search_results") st with
    | mk st' e =>
      rw [hp] at h1 h2
      cases e with
      | aborted msg => exact ⟨h1, h2⟩
      | finished tok sect =>
        obtain ⟨g1, g2⟩ := ih st' h1
        exact ⟨g1, fun q' => by rw [g2 q', h2 q']⟩

theorem collect_inv (fetch : Fetcher) (pages : Nat) (queries : List String)
    (slug0 descr0 : List (String × String)) :
    Inv (collectPhase fetch pages queries slug0 descr0).1 := by
  have h0 : Inv
      { slugCache := slug0, descrCache := descr0,
        itemsByQuery := queries.map (fun q => (q, []))
        deduped := [], trace := [], processedLog := [] } := by
    constructor
    · intro k _; rfl
    · intro q hq
      cases hl : alookup (queries.map (fun x => (x, ([] : List MarketplaceItem)))) q with
      | none =>
        show (alookup (queries.map (fun x => (x, ([] : List MarketplaceItem)))) q).getD []
            = logItemsFor q []
        rw [hl]; rfl
      | some l =>
        have : l = [] := alookup_initIbq_val queries q l hl
        show (alookup (queries.map (fun x => (x, ([] : List MarketplaceItem)))) q).getD []
            = logItemsFor q []
        rw [hl, this]; rfl
  exact (queryLoop_inv fetch pages queries _ h0).1

/-! Lemmas about the final dedup pass. -/

theorem itemIds_cons (it : MarketplaceItem) (l : List MarketplaceItem) :
    itemIds (it :: l) = if it.id = "" then itemIds l else it.id :: itemIds l := by
  by_cases h : it.id = "" <;> simp [itemIds, List.filterMap_cons, h]

theorem dedupPass_ids (dd : List (String × MarketplaceItem))
    (hdd : ∀ k v, k ≠ "" → alookup dd k = some v → v.id = k) :
    ∀ (l : List MarketplaceItem) (seen : List String),
    (dedupPass dd l seen).map (fun it => it.id) = firstOccurAux (itemIds l) seen := by
  intro l
  induction l with
  | nil => intro seen; rfl
  | cons it rest ih =>
    intro seen
    rw [dedupPass, itemIds_cons]
    by_cases h0 : it.id = ""
    · rw [if_pos h0, if_pos h0, ih seen]
    · rw [if_neg h0, if_neg h0]
      by_cases h1 : it.id ∈ seen
      · rw [if_pos h1, firstOccurAux, if_pos h1, ih seen]
      · rw [if_neg h1, firstOccurAux, if_neg h1]
        rw [List.map_cons, ih (it.id :: seen)]
        congr 1
        cases hl : alookup dd it.id with
        | none => rfl
        | some v => exact hdd it.id v h0 hl

theorem firstOccurAux_nodup :
    ∀ (l seen : List String),
    (firstOccurAux l seen).Nodup ∧ ∀ i ∈ firstOccurAux l seen, i ∉ seen := by
  intro l
  induction l with
  | nil => intro seen; exact ⟨List.nodup_nil, by intro i hi; cases hi⟩
  | cons x rest ih =>
    intro seen
    rw [firstOccurAux]
    by_cases h : x ∈ seen
    · rw [if_pos h]
      exact ⟨(ih seen).1, (ih seen).2⟩
    · rw [if_neg h]
      obtain ⟨hnd, hns⟩ := ih (x :: seen)
      constructor
      · rw [List.nodup_cons]
        refine ⟨fun hx => ?_, hnd⟩
        exact hns x hx (List.mem_cons_self x seen)
      · intro i hi
        cases hi with
        | head => exact h
        | tail _ h2 => exact fun hs => hns i h2 (List.mem_cons_of_mem x hs)

theorem dedupPass_mem (dd : List (String × MarketplaceItem)) :
    ∀ (l : List MarketplaceItem) (seen : List String) (e : MarketplaceItem),
    e ∈ dedupPass dd l seen →
    ∃ item, item ∈ l ∧ item.id ≠ "" ∧ e = (alookup dd item.id).getD item := by
  intro l
  induction l with
  | nil => intro seen e he; cases he
  | cons it rest ih =>
    intro seen e he
    rw [dedupPass] at he
    by_cases h0 : it.id = ""
    · rw [if_pos h0] at he
      obtain ⟨item, h1, h2, h3⟩ := ih seen e he
      exact ⟨item, List.mem_cons_of_mem it h1, h2, h3⟩
    · rw [if_neg h0] at he
      by_cases h1 : it.id ∈ seen
      · rw [if_pos h1] at he
        obtain ⟨item, g1, g2, g3⟩ := ih seen e he
        exact ⟨item, List.mem_cons_of_mem it g1, g2, g3⟩
      · rw [if_neg h1] at he
        cases he with
        | head => exact ⟨it, List.mem_cons_self it rest, h0, rfl⟩
        | tail _ h2 =>
          obtain ⟨item, g1, g2, g3⟩ := ih (it.id :: seen) e h2
          exact ⟨item, List.mem_cons_of_mem it g1, g2, g3⟩

theorem mem_iterItemsInOrder (m : List (String × List MarketplaceItem)) :
    ∀ (qs : List String) (it : MarketplaceItem),
    it ∈ iterItemsInOrder m qs → ∃ q, q ∈ qs ∧ it ∈ ibqGet m q := by
  intro qs
  induction qs with
  | nil => intro it h; cases h
  | cons q rest ih =>
    intro it h
    rw [iterItemsInOrder] at h
    rcases List.mem_append.mp h with h1 | h2
    · exact ⟨q, List.mem_cons_self q rest, h1⟩
    · obtain ⟨q', g1, g2⟩ := ih it h2
      exact ⟨q', List.mem_cons_of_mem q g1, g2⟩

/-! Trace lemmas: the ghost request log. -/

theorem processItem_trace (q : String) (st : SearchState)
    (raw : Option MarketplaceItem) : (processItem q st raw).trace = st.trace := by
  cases raw <;> rfl

theorem foldl_processItem_trace (q : String) (l : List (Option MarketplaceItem)) :
    ∀ (st : SearchState), (l.foldl (processItem q) st).trace = st.trace := by
  induction l with
  | nil => intro st; rfl
  | cons raw rest ih =>
    intro st
    simp only [List.foldl_cons]
    rw [ih (processItem q st raw), processItem_trace]

theorem pageLoop_trace_le (fetch : Fetcher) (q : String) :
    ∀ (fuel n : Nat) (tok sect : Option String) (st : SearchState),
    (pageLoop fetch q fuel n tok sect st).1.trace.length
      ≤ st.trace.length + fuel := by
  intro fuel
  induction fuel with
  | zero => intro n tok sect st; exact Nat.le_refl _
  | succ fuel ih =>
    intro n tok sect st
    rw [pageLoop]
    split
    · exact Nat.le_add_right _ _
    · cases hf : fetch q (if n > 1 then tok else none) with
      | statusError code text =>
        simp only [hf]
        simp [Nat.succ_le_succ, Nat.le_add_right]
      | otherError msg =>
        simp only [hf]
        simp [Nat.succ_le_succ, Nat.le_add_right]
      | ok d =>
        simp only [hf]
        split
        · rw [foldl_processItem_trace]
          simp
        · calc (pageLoop fetch q fuel (n + 1) d.next_page d.next_section_type
                  (d.items.foldl (processItem q)
                    { st with trace := st.trace ++ [(q, if n > 1 then tok else none)] })).1.trace.length
              ≤ (d.items.foldl (processItem q)
                    { st with trace := st.trace ++ [(q, if n > 1 then tok else none)] }).trace.length + fuel :=
                ih (n + 1) d.next_page d.next_section_type _
          _ ≤ st.trace.length + (fuel + 1) := by
                rw [foldl_processItem_trace]
                simp
                omega

/-- A list with a last element appended has that element as its `getLast?`. -/
theorem getLast?_append_one {α : Type} (l : List α) (a : α) :
    (l ++ [a]).getLast? = some a := by
  induction l with
  | nil => rfl
  | cons x rest ih =>
    rw [List.cons_append]
    cases h : rest ++ [a] with
    | nil => exact absurd h (by simp)
    | cons y ys => rw [List.getLast?_cons_cons, ← h, ih]

/-- Shape of an aborted page loop: the final state is some intermediate state
with exactly the failing request appended to the trace (the caches and all
other components are untouched by the abort step), and the message is the
formatted error of that request's fetch result. -/
theorem pageLoop_aborted (fetch : Fetcher) (q : String) :
    ∀ (fuel n : Nat) (tok sect : Option String) (st st' : SearchState)
      (msg : String),
    pageLoop fetch q fuel n tok sect st = (st', QueryExit.aborted msg) →
    ∃ (r : String × Option String) (t : SearchState),
      st' = { t with trace := t.trace ++ [r] } ∧
      ((∃ c txt, fetch r.1 r.2 = FetchResult.statusError c txt ∧
          msg = "API Error: " ++ toString c ++ " - " ++ txt) ∨
       (∃ e, fetch r.1 r.2 = FetchResult.otherError e ∧
          msg = "An error occurred: " ++ e)) := by
  intro fuel
  induction fuel with
  | zero =>
    intro n tok sect st st' msg h
    simp [pageLoop] at h
  | succ fuel ih =>
    intro n tok sect st st' msg h
    rw [pageLoop] at h
    split at h
    · simp at h
    · cases hf : fetch q (if n > 1 then tok else none) with
      | statusError code text =>
        simp only [hf, Prod.mk.injEq, QueryExit.aborted.injEq] at h
        refine ⟨(q, if n > 1 then tok else none), st, h.1.symm, Or.inl ?_⟩
        exact ⟨code, text, hf, h.2.symm⟩
      | otherError e =>
        simp only [hf, Prod.mk.injEq, QueryExit.aborted.injEq] at h
        refine ⟨(q, if n > 1 then tok else none), st, h.1.symm, Or.inr ?_⟩
        exact ⟨e, hf, h.2.symm⟩
      | ok d =>
        simp only [hf] at h
        split at h
        · simp at h
        · exact ih (n + 1) d.next_page d.next_section_type _ st' msg h

/-- Shape of an aborted query loop (same contents as `pageLoop_aborted`). -/
theorem queryLoop_aborted (fetch : Fetcher) (pages : Nat) :
    ∀ (qs : List String) (st st' : SearchState) (msg : String),
    queryLoop fetch pages qs st = (st', some msg) →
    ∃ (r : String × Option String) (t : SearchState),
      st' = { t with trace := t.trace ++ [r] } ∧
      ((∃ c txt, fetch r.1 r.2 = FetchResult.statusError c txt ∧
          msg = "API Error: " ++ toString c ++ " - " ++ txt) ∨
       (∃ e, fetch r.1 r.2 = FetchResult.otherError e ∧
          msg = "An error occurred: " ++ e)) := by
  intro qs
  induction qs with
  | nil =>
    intro st st' msg h
    simp [queryLoop] at h
  | cons q rest ih =>
    intro st st' msg h
    rw [queryLoop] at h
    cases hp : pageLoop fetch q pages 1 none (some "organic_search_results") st with
    | mk s1 e =>
      rw [hp] at h
      cases e with
      | aborted m2 =>
        simp only [Prod.mk.injEq, Option.some.injEq] at h
        obtain ⟨h1, h2⟩ := h
        subst h1; subst h2
        exact pageLoop_aborted fetch q pages 1 none (some "organic_search_results")
          st s1 m2 hp
      | finished tok sect => exact ih s1 st' msg h

/-! Cache-presence monotonicity: no operation of the collection phase ever
removes a cache key. -/

theorem processItem_slug_isSome (q : String) (st : SearchState)
    (raw : Option MarketplaceItem) (k : String)
    (h : (alookup st.slugCache k).isSome = true) :
    (alookup (processItem q st raw).slugCache k).isSome = true := by
  cases raw with
  | none => exact h
  | some item =>
    show (alookup (if item.id ≠ "" ∧ item.web_slug ≠ "" then
        cachePut st.slugCache item.id item.web_slug else st.slugCache) k).isSome = true
    split
    · exact alookup_cachePut_isSome _ _ _ _ h
    · exact h

theorem processItem_descr_isSome (q : String) (st : SearchState)
    (raw : Option MarketplaceItem) (k : String)
    (h : (alookup st.descrCache k).isSome = true) :
    (alookup (processItem q st raw).descrCache k).isSome = true := by
  cases raw with
  | none => exact h
  | some item =>
    show (alookup (if item.id ≠ "" ∧ item.description ≠ "" then
        cachePut st.descrCache item.id item.description else st.descrCache) k).isSome = true
    split
    · exact alookup_cachePut_isSome _ _ _ _ h
    · exact h

theorem foldl_processItem_caches_isSome (q : String)
    (l : List (Option MarketplaceItem)) :
    ∀ (st : SearchState) (k : String),
    ((alookup st.slugCache k).isSome = true →
      (alookup (l.foldl (processItem q) st).slugCache k).isSome = true) ∧
    ((alookup st.descrCache k).isSome = true →
      (alookup (l.foldl (processItem q) st).descrCache k).isSome = true) := by
  induction l with
  | nil => intro st k; exact ⟨fun h => h, fun h => h⟩
  | cons raw rest ih =>
    intro st k
    simp only [List.foldl_cons]
    constructor
    · intro h
      exact (ih (processItem q st raw) k).1 (processItem_slug_isSome q st raw k h)
    · intro h
      exact (ih (processItem q st raw) k).2 (processItem_descr_isSome q st raw k h)

theorem pageLoop_caches_isSome (fetch : Fetcher) (q : String) :
    ∀ (fuel n : Nat) (tok sect : Option String) (st : SearchState) (k : String),
    ((alookup st.slugCache k).isSome = true →
      (alookup (pageLoop fetch q fuel n tok sect st).1.slugCache k).isSome = true) ∧
    ((alookup st.descrCache k).isSome = true →
      (alookup (pageLoop fetch q fuel n tok sect st).1.descrCache k).isSome = true) := by
  intro fuel
  induction fuel with
  | zero => intro n tok sect st k; exact ⟨fun h => h, fun h => h⟩
  | succ fuel ih =>
    intro n tok sect st k
    rw [pageLoop]
    split
    · exact ⟨fun h => h, fun h => h⟩
    · cases hf : fetch q (if n > 1 then tok else none) with
      | statusError code text => simp only [hf]; exact ⟨fun h => h, fun h => h⟩
      | otherError e => simp only [hf]; exact ⟨fun h => h, fun h => h⟩
      | ok d =>
        simp only [hf]
        split
        · exact foldl_processItem_caches_isSome q d.items
            { st with trace := st.trace ++ [(q, if n > 1 then tok else none)] } k
        · constructor
          · intro h
            exact (ih (n + 1) d.next_page d.next_section_type _ k).1
              ((foldl_processItem_caches_isSome q d.items _ k).1 h)
          · intro h
            exact (ih (n + 1) d.next_page d.next_section_type _ k).2
              ((foldl_processItem_caches_isSome q d.items _ k).2 h)

theorem queryLoop_caches_isSome (fetch : Fetcher) (pages : Nat) :
    ∀ (qs : List String) (st : SearchState) (k : String),
    ((alookup st.slugCache k).isSome = true →
      (alookup (queryLoop fetch pages qs st).1.slugCache k).isSome = true) ∧
    ((alookup st.descrCache k).isSome = true →
      (alookup (queryLoop fetch pages qs st).1.descrCache k).isSome = true) := by
  intro qs
  induction qs with
  | nil => intro st k; exact ⟨fun h => h, fun h => h⟩
  | cons q rest ih =>
    intro st k
    rw [queryLoop]
    cases hp : pageLoop fetch q pages 1 none (some "organic_search_results") st with
    | mk s1 e =>
      have hmono := pageLoop_caches_isSome fetch q pages 1 none
        (some "organic_search_results") st k
      rw [hp] at hmono
      cases e with
      | aborted m => exact hmono
      | finished tok sect =>
        constructor
        · intro h; exact (ih s1 k).1 (hmono.1 h)
        · intro h; exact (ih s1 k).2 (hmono.2 h)

/-! Overwrite behaviour of the metadata caches over a run of sightings. -/

theorem orDefault_assoc {α : Type} (a b c : Option α) :
    orDefault (orDefault a b) c = orDefault a (orDefault b c) := by
  cases a <;> rfl

theorem foldl_slug_lastField (q i : String) (hi : i ≠ "") :
    ∀ (l : List MarketplaceItem) (st : SearchState), (∀ it ∈ l, it.id = i) →
    alookup (l.foldl (fun s it => processItem q s (some it)) st).slugCache i
      = orDefault (lastField (fun it => it.web_slug) l)
          (alookup st.slugCache i) := by
  intro l
  induction l with
  | nil => intro st _; rfl
  | cons it rest ih =>
    intro st hall
    have hid : it.id = i := hall it (List.mem_cons_self it rest)
    simp only [List.foldl_cons]
    rw [ih (processItem q st (some it))
        (fun x hx => hall x (List.mem_cons_of_mem it hx))]
    rw [lastField, orDefault_assoc]
    congr 1
    show alookup (if it.id ≠ "" ∧ it.web_slug ≠ "" then
          cachePut st.slugCache it.id it.web_slug else st.slugCache) i
      = orDefault (if it.web_slug = "" then none else some it.web_slug)
          (alookup st.slugCache i)
    by_cases hs : it.web_slug = ""
    · rw [if_neg (by rw [hs]; exact fun hc => hc.2 rfl), if_pos hs]
      rfl
    · rw [if_pos ⟨by rw [hid]; exact hi, hs⟩, hid, alookup_cachePut_self,
        if_neg hs]
      rfl

theorem foldl_descr_lastField (q i : String) (hi : i ≠ "") :
    ∀ (l : List MarketplaceItem) (st : SearchState), (∀ it ∈ l, it.id = i) →
    alookup (l.foldl (fun s it => processItem q s (some it)) st).descrCache i
      = orDefault (lastField (fun it => it.description) l)
          (alookup st.descrCache i) := by
  intro l
  induction l with
  | nil => intro st _; rfl
  | cons it rest ih =>
    intro st hall
    have hid : it.id = i := hall it (List.mem_cons_self it rest)
    simp only [List.foldl_cons]
    rw [ih (processItem q st (some it))
        (fun x hx => hall x (List.mem_cons_of_mem it hx))]
    rw [lastField, orDefault_assoc]
    congr 1
    show alookup (if it.id ≠ "" ∧ it.description ≠ "" then
          cachePut st.descrCache it.id it.description else st.descrCache) i
      = orDefault (if it.description = "" then none else some it.description)
          (alookup st.descrCache i)
    by_cases hs : it.description = ""
    · rw [if_neg (by rw [hs]; exact fun hc => hc.2 rfl), if_pos hs]
      rfl
    · rw [if_pos ⟨by rw [hid]; exact hi, hs⟩, hid, alookup_cachePut_self,
        if_neg hs]
      rfl

/-! Bridge lemmas used by the claim theorems. -/

theorem alookup_ddSetdefault_isSome {α : Type} (m : List (String × α))
    (k : String) (v : α) : (alookup (ddSetdefault m k v) k).isSome = true := by
  cases h : alookup m k with
  | some w => rw [ddSetdefault_of_some v h, h]; rfl
  | none => rw [ddSetdefault_of_none v h]; simp [alookup]

/-- The two halves of the ordering claim, for any invariant-satisfying state:
output ids are the first occurrences of the iteration order, and each emitted
object is the chronologically first processed item carrying its id. -/
theorem orderedUnique_spec (queries : List String) (st : SearchState)
    (h : Inv st) :
    (orderedUniqueItems queries st).map (fun it => it.id)
      = firstOccur (itemIds (iterItemsInOrder st.itemsByQuery queries))
    ∧ ∀ e ∈ orderedUniqueItems queries st,
        logFirstWithId e.id st.processedLog = some e := by
  have hdd : ∀ k v, k ≠ "" → alookup st.deduped k = some v → v.id = k := by
    intro k v hk hl
    rw [h.dd k hk] at hl
    exact logFirstWithId_id k _ v hl
  constructor
  · exact dedupPass_ids st.deduped hdd (iterItemsInOrder st.itemsByQuery queries) []
  · intro e he
    obtain ⟨item, hmem, hid, heq⟩ := dedupPass_mem st.deduped _ [] e he
    obtain ⟨q, _, hqget⟩ := mem_iterItemsInOrder st.itemsByQuery queries item hmem
    cases hl : alookup st.itemsByQuery q with
    | none =>
      unfold ibqGet at hqget
      rw [hl] at hqget
      cases hqget
    | some l =>
      have hsome : (alookup st.itemsByQuery q).isSome = true := by rw [hl]; rfl
      have hlog := h.ibq q hsome
      rw [hlog] at hqget
      obtain ⟨v, hv⟩ := mem_logItemsFor_firstWithId q st.processedLog item hqget
      have hvid : v.id = item.id := logFirstWithId_id item.id _ v hv
      have hlook : alookup st.deduped item.id = some v := by
        rw [h.dd item.id hid, hv]
      have he2 : e = v := by rw [heq, hlook]; rfl
      rw [he2, hvid]
      exact hv

theorem linkRender_length (cache : List (String × String)) :
    ∀ (ids : List String), (linkRender cache ids).length = ids.length := by
  intro ids
  induction ids with
  | nil => rfl
  | cons i rest ih => rw [linkRender, List.length_cons, List.length_cons, ih]

theorem linkRender_getD (cache : List (String × String)) :
    ∀ (ids : List String) (k : Nat) (h : k < ids.length),
    (linkRender cache ids).getD k ""
      = match alookup cache (ids.get ⟨k, h⟩) with
        | none => "- `" ++ ids.get ⟨k, h⟩
            ++ "`: Unknown id. Run `search` first to populate the cache."
        | some slug =>
          if slug = "" then
            "- `" ++ ids.get ⟨k, h⟩
              ++ "`: Unknown id. Run `search` first to populate the cache."
          else "- `" ++ ids.get ⟨k, h⟩ ++ "`: " ++ ITEM_BASE_URL ++ slug := by
  intro ids
  induction ids with
  | nil => intro k h; exact absurd h (Nat.not_lt_zero k)
  | cons i rest ih =>
    intro k h
    cases k with
    | zero => rfl
    | succ k =>
      rw [linkRender]
      show (linkRender cache rest).getD k "" = _
      exact ih k (Nat.lt_of_succ_lt_succ h)

/-! Concrete fixtures used by witnesses and counterexamples. -/

/-- A fetcher that always succeeds with an empty organic page. -/
def witFetchEmpty : Fetcher := fun _ _ =>
  FetchResult.ok
    { items := [], next_page := none,
      next_section_type := some "organic_search_results" }

/-- A fetcher that always fails with HTTP 500 and body "server error". -/
def witFetchFail : Fetcher := fun _ _ => FetchResult.statusError 500 "server error"

/-- A fixture item with id "1". -/
def witItemA : MarketplaceItem :=
  { id := "1", title := "A", web_slug := "sa", description := "da" }

/-- A fixture item with id "2". -/
def witItemB : MarketplaceItem :=
  { id := "2", title := "B", web_slug := "sb", description := "db" }

/-- A fetcher serving two pages; the second repeats both items. -/
def witFetchAB : Fetcher := fun _ tok =>
  match tok with
  | none =>
    FetchResult.ok
      { items := [some witItemA, some witItemB], next_page := some "t1",
        next_section_type := some "organic_search_results" }
  | some _ =>
    FetchResult.ok
      { items := [some witItemB, some witItemA], next_page := none,
        next_section_type := some "organic_search_results" }

/-- A fetcher whose response switches to a non-organic section. -/
def witFetchSect : Fetcher := fun _ _ =>
  FetchResult.ok
    { items := [some witItemA], next_page := some "t2",
      next_section_type := some "ads" }

/-- An empty per-call state whose per-query table has the single key `q`. -/
def witState (q : String) : SearchState :=
  { slugCache := [], descrCache := [], itemsByQuery := [(q, [])],
    deduped := [], trace := [], processedLog := [] }

/-- A reserved fixture item with id "9". -/
def witReserved : MarketplaceItem :=
  { id := "9", web_slug := "sr", description := "dr",
    reserved := { flag := true } }

/-- Fixture for the C6 counterexample: first sighting of id "7", with slug
and description present. -/
def c6ItemFirst : MarketplaceItem :=
  { id := "7", web_slug := "slug-a", description := "desc-a" }

/-- Fixture for the C6 counterexample: a later sighting of id "7" with empty
slug and description. -/
def c6ItemLast : MarketplaceItem := { id := "7" }

/-- The state after processing the two C6 fixture sightings in order. -/
def c6Run : SearchState :=
  [c6ItemFirst, c6ItemLast].foldl
    (fun s it => processItem "q" s (some it)) (witState "q")

/-! The claim theorems. -/

/-- Claim C1: for every aggregation call, the ids of the output sequence are
exactly the first occurrences, in order, of the query-then-page-then-in-page
item sequence, and every emitted item object is the chronologically
first-processed item carrying its id — so later occurrences of an id (in the
same or a later query) change neither the position nor the contents of the
output entry. -/
theorem claim1_first_occurrence (fetch : Fetcher) (p : Int) (arg : QueryArg)
    (s0 d0 : List (String × String)) :
    (searchOrderedUnique fetch p arg s0 d0).map (fun it => it.id)
      = firstOccur (itemIds (iterItemsInOrder
          (collectPhase fetch p.toNat (normalizeQueries arg) s0 d0).1.itemsByQuery
          (normalizeQueries arg)))
    ∧ ∀ e ∈ searchOrderedUnique fetch p arg s0 d0,
        logFirstWithId e.id
            (collectPhase fetch p.toNat (normalizeQueries arg) s0 d0).1.processedLog
          = some e :=
  orderedUnique_spec (normalizeQueries arg)
    (collectPhase fetch p.toNat (normalizeQueries arg) s0 d0).1
    (collect_inv fetch p.toNat (normalizeQueries arg) s0 d0)

/-- Claim C1 witness: two queries of a fetcher that repeats both items on a
second page still produce ids in first-occurrence order. -/
theorem claim1_witness :
    (searchOrderedUnique witFetchAB 2 (QueryArg.str "a") [] []).map (fun it => it.id)
      = firstOccur (itemIds (iterItemsInOrder
          (collectPhase witFetchAB (2 : Int).toNat
              (normalizeQueries (QueryArg.str "a")) [] []).1.itemsByQuery
          (normalizeQueries (QueryArg.str "a"))))
    ∧ (searchOrderedUnique witFetchAB 2 (QueryArg.str "a") [] []).map
        (fun it => it.id) = ["1", "2"] := by
  refine ⟨(claim1_first_occurrence witFetchAB 2 (QueryArg.str "a") [] []).1, ?_⟩
  decide

/-- Claim C2: for every aggregation call, the item ids of the output sequence
are pairwise distinct, no matter how often an id occurred across pages and
queries (the rendered lines are produced from a sublist of this sequence). -/
theorem claim2_unique_ids (fetch : Fetcher) (p : Int) (arg : QueryArg)
    (s0 d0 : List (String × String)) :
    ((searchOrderedUnique fetch p arg s0 d0).map (fun it => it.id)).Nodup := by
  have h := (orderedUnique_spec (normalizeQueries arg)
    (collectPhase fetch p.toNat (normalizeQueries arg) s0 d0).1
    (collect_inv fetch p.toNat (normalizeQueries arg) s0 d0)).1
  unfold searchOrderedUnique
  rw [h]
  exact (firstOccurAux_nodup _ []).1

/-- Claim C3: a query's pagination loop issues at most `maxPages` requests;
after a response whose section sentinel differs from
"organic_search_results" it stops immediately while keeping the just-received
page's items; and after a response carrying no (or an empty, hence falsy)
continuation token it stops without requesting further pages. -/
theorem claim3_pagination (fetch : Fetcher) (q : String) (p : Nat)
    (st : SearchState) :
    ((pageLoop fetch q p 1 none (some "organic_search_results") st).1.trace.length
        ≤ st.trace.length + p)
    ∧ (∀ (fuel n : Nat) (tok sect : Option String) (s : SearchState)
          (d : PageData),
        ¬(n > 1 ∧ tokFalsy tok = true) →
        fetch q (if n > 1 then tok else none) = FetchResult.ok d →
        d.next_section_type ≠ some "organic_search_results" →
        pageLoop fetch q (fuel + 1) n tok sect s
          = (d.items.foldl (processItem q)
              { s with trace := s.trace ++ [(q, if n > 1 then tok else none)] },
             QueryExit.finished d.next_page d.next_section_type))
    ∧ (∀ (fuel n : Nat) (tok sect : Option String) (s : SearchState)
          (d : PageData),
        1 ≤ n →
        ¬(n > 1 ∧ tokFalsy tok = true) →
        fetch q (if n > 1 then tok else none) = FetchResult.ok d →
        d.next_section_type = some "organic_search_results" →
        tokFalsy d.next_page = true →
        pageLoop fetch q (fuel + 1) n tok sect s
          = (d.items.foldl (processItem q)
              { s with trace := s.trace ++ [(q, if n > 1 then tok else none)] },
             QueryExit.finished d.next_page d.next_section_type)) := by
  refine ⟨pageLoop_trace_le fetch q p 1 none (some "organic_search_results") st,
    ?_, ?_⟩
  · intro fuel n tok sect s d hbreak hf hsect
    rw [pageLoop, if_neg hbreak]
    simp only [hf]
    rw [if_pos hsect]
  · intro fuel n tok sect s d hn hbreak hf hsect htok
    rw [pageLoop, if_neg hbreak]
    simp only [hf]
    rw [if_neg (not_not_intro hsect)]
    cases fuel with
    | zero => rfl
    | succ fuel =>
      rw [pageLoop, if_pos ⟨by omega, htok⟩, hsect]

/-- Claim C3 witness: with one non-organic page the loop stops after a single
request, keeping the page's item, and the trace stays within the bound. -/
theorem claim3_witness :
    ((pageLoop witFetchSect "a" 5 1 none (some "organic_search_results")
        (witState "a")).1.trace.length ≤ 5)
    ∧ (pageLoop witFetchSect "a" 5 1 none (some "organic_search_results")
        (witState "a")).2 = QueryExit.finished (some "t2") (some "ads")
    ∧ (pageLoop witFetchSect "a" 5 1 none (some "organic_search_results")
        (witState "a")).1.trace.length = 1 := by
  have h := claim3_pagination witFetchSect "a" 5 (witState "a")
  have h2 := h.2.1 4 1 none (some "organic_search_results") (witState "a")
    { items := [some witItemA], next_page := some "t2",
      next_section_type := some "ads" }
    (by decide) rfl (by decide)
  refine ⟨h.1, ?_, ?_⟩
  · show (pageLoop witFetchSect "a" (4 + 1) 1 none
        (some "organic_search_results") (witState "a")).2 = _
    rw [h2]
  · show (pageLoop witFetchSect "a" (4 + 1) 1 none
        (some "organic_search_results") (witState "a")).1.trace.length = 1
    rw [h2]
    decide

/-- Claim C4: when the collection phase aborts because a page fetch failed,
the aggregation call returns exactly the single formatted error string
("API Error: <code> - <body>" for a status error, "An error occurred: <msg>"
otherwise) instead of any rendered items, and the failing request is the last
request of the whole call — no further pages or queries are fetched. -/
theorem claim4_abort (fetch : Fetcher) (incl : Bool) (p : Int) (arg : QueryArg)
    (s0 d0 : List (String × String)) (s : SearchState) (m : String)
    (h1 : ¬ p < 1) (h2 : normalizeQueries arg ≠ [])
    (h3 : collectPhase fetch p.toNat (normalizeQueries arg) s0 d0 = (s, some m)) :
    (searchAgg fetch incl p arg s0 d0).output = m
    ∧ ∃ r : String × Option String,
        (searchAgg fetch incl p arg s0 d0).trace.getLast? = some r
        ∧ ((∃ c txt, fetch r.1 r.2 = FetchResult.statusError c txt ∧
              m = "API Error: " ++ toString c ++ " - " ++ txt)
           ∨ (∃ e2, fetch r.1 r.2 = FetchResult.otherError e2 ∧
              m = "An error occurred: " ++ e2)) := by
  have hagg : searchAgg fetch incl p arg s0 d0
      = { output := m, slugCache := s.slugCache, descrCache := s.descrCache,
          trace := s.trace } := by
    unfold searchAgg
    rw [if_neg h1, if_neg h2, h3]
  obtain ⟨r, t, hshape, hdisj⟩ :=
    queryLoop_aborted fetch p.toNat (normalizeQueries arg) _ s m h3
  have htr : s.trace = t.trace ++ [r] := by rw [hshape]
  refine ⟨by rw [hagg], r, ?_, hdisj⟩
  rw [hagg]
  show s.trace.getLast? = some r
  rw [htr]
  exact getLast?_append_one t.trace r

/-- Claim C4 witness: a fetcher failing with HTTP 500 and body "server error"
makes the aggregation return the formatted error string. -/
theorem claim4_witness :
    (searchAgg witFetchFail true 5 (QueryArg.ofList [some "a", some "b"]) [] []).output
      = "API Error: 500 - server error" :=
  (claim4_abort witFetchFail true 5 (QueryArg.ofList [some "a", some "b"]) [] []
    (collectPhase witFetchFail (5 : Int).toNat
      (normalizeQueries (QueryArg.ofList [some "a", some "b"])) [] []).1
    "API Error: 500 - server error" (by decide) (by decide) rfl).1

/-- Claim C5: a parsed item with the reserved flag set is not rendered, yet
its non-empty id still enters the per-query collection and the canonical map,
its non-empty slug and description are still written to the caches, and a
subsequent `link` lookup of the id succeeds with the cached slug. -/
theorem claim5_reserved (st : SearchState) (q : String)
    (item : MarketplaceItem) (incl : Bool) (l : List MarketplaceItem)
    (hres : item.reserved.flag = true) (hid : item.id ≠ "")
    (hslug : item.web_slug ≠ "") (hdesc : item.description ≠ "")
    (hkey : alookup st.itemsByQuery q = some l) :
    format_item_markdown incl item = none
    ∧ alookup (processItem q st (some item)).slugCache item.id
        = some item.web_slug
    ∧ alookup (processItem q st (some item)).descrCache item.id
        = some item.description
    ∧ alookup (processItem q st (some item)).itemsByQuery q = some (l ++ [item])
    ∧ (alookup (processItem q st (some item)).deduped item.id).isSome = true
    ∧ link (processItem q st (some item)).slugCache (IdsArg.idList [item.id])
        = "- `" ++ item.id ++ "`: " ++ ITEM_BASE_URL ++ item.web_slug := by
  have hslugLook : alookup (processItem q st (some item)).slugCache item.id
      = some item.web_slug := by
    show alookup (if item.id ≠ "" ∧ item.web_slug ≠ "" then
        cachePut st.slugCache item.id item.web_slug else st.slugCache) item.id
      = some item.web_slug
    rw [if_pos ⟨hid, hslug⟩, alookup_cachePut_self]
  refine ⟨?_, hslugLook, ?_, ?_, ?_, ?_⟩
  · unfold format_item_markdown
    rw [if_pos hres]
  · show alookup (if item.id ≠ "" ∧ item.description ≠ "" then
        cachePut st.descrCache item.id item.description else st.descrCache) item.id
      = some item.description
    rw [if_pos ⟨hid, hdesc⟩, alookup_cachePut_self]
  · show alookup (ibqAppend st.itemsByQuery q item) q = some (l ++ [item])
    rw [alookup_ibqAppend_self, hkey]
    rfl
  · show (alookup (if item.id ≠ "" then ddSetdefault st.deduped item.id item
        else st.deduped) item.id).isSome = true
    rw [if_pos hid]
    exact alookup_ddSetdefault_isSome st.deduped item.id item
  · show (if ([item.id] : List String) = [] then
          "Invalid item_ids: provide a non-empty list of ids"
        else String.intercalate "\n"
          (linkRender (processItem q st (some item)).slugCache [item.id]))
      = "- `" ++ item.id ++ "`: " ++ ITEM_BASE_URL ++ item.web_slug
    rw [if_neg (by simp)]
    unfold linkRender
    rw [hslugLook]
    show String.intercalate "\n"
        [if item.web_slug = "" then "- `" ++ item.id
            ++ "`: Unknown id. Run `search` first to populate the cache."
          else "- `" ++ item.id ++ "`: " ++ ITEM_BASE_URL ++ item.web_slug] = _
    rw [if_neg hslug]
    rfl

/-- Claim C5 witness: the reserved fixture item is cached and linkable while
never rendered. -/
theorem claim5_witness :
    format_item_markdown true witReserved = none
    ∧ link (processItem "q" (witState "q") (some witReserved)).slugCache
        (IdsArg.idList [witReserved.id])
      = "- `" ++ witReserved.id ++ "`: " ++ ITEM_BASE_URL
          ++ witReserved.web_slug := by
  have h := claim5_reserved (witState "q") "q" witReserved true []
    (by decide) (by decide) (by decide) (by decide) (by decide)
  exact ⟨h.1, h.2.2.2.2.2⟩

/-- Claim C6 counterexample: after processing two sightings of id "7" where
the most recent one has empty slug and description, the caches still hold the
earlier sighting's values — they do not equal those of the most recently
processed item with that id, contradicting the claim as stated. -/
theorem claim6_counterexample :
    c6ItemLast.id = "7" ∧ c6ItemLast.web_slug = ""
    ∧ c6ItemLast.description = ""
    ∧ alookup c6Run.slugCache "7" = some "slug-a"
    ∧ alookup c6Run.descrCache "7" = some "desc-a"
    ∧ alookup c6Run.slugCache "7" ≠ some c6ItemLast.web_slug
    ∧ alookup c6Run.descrCache "7" ≠ some c6ItemLast.description := by
  decide

/-- Claim C6 (amended): for a sequence of processed sightings of a fixed
non-empty id, the cached slug (resp. description) afterwards equals that of
the most recently processed sighting with a non-empty slug (resp.
description); sightings whose slug or description is empty leave the prior
cache entry for the id unchanged. -/
theorem claim6_amended (q i : String) (l : List MarketplaceItem)
    (st : SearchState) (hi : i ≠ "") (hall : ∀ it ∈ l, it.id = i) :
    alookup (l.foldl (fun s it => processItem q s (some it)) st).slugCache i
      = orDefault (lastField (fun it => it.web_slug) l)
          (alookup st.slugCache i)
    ∧ alookup (l.foldl (fun s it => processItem q s (some it)) st).descrCache i
      = orDefault (lastField (fun it => it.description) l)
          (alookup st.descrCache i) :=
  ⟨foldl_slug_lastField q i hi l st hall,
   foldl_descr_lastField q i hi l st hall⟩

/-- Claim C6 witness: on the fixture sightings the amended statement yields
the first sighting's slug, the last one with a non-empty slug. -/
theorem claim6_witness :
    alookup ([c6ItemFirst, c6ItemLast].foldl
        (fun s it => processItem "w" s (some it)) (witState "w")).slugCache "7"
      = some "slug-a" := by
  have h := (claim6_amended "w" "7" [c6ItemFirst, c6ItemLast] (witState "w")
    (by decide) (by decide)).1
  rw [h]
  decide

/-- Claim C7: a call with a non-positive page count, or whose query argument
normalizes to no usable query, returns the corresponding descriptive message,
issues no page request, and leaves both metadata caches exactly as they
were. -/
theorem claim7_invalid_input (fetch : Fetcher) (incl : Bool) (p : Int)
    (arg : QueryArg) (s0 d0 : List (String × String))
    (h : p < 1 ∨ normalizeQueries arg = []) :
    (searchAgg fetch incl p arg s0 d0).output
      = (if p < 1 then "Invalid SEARCH_PAGES_TO_FETCH: must be >= 1"
         else "Invalid query: provide a non-empty string or list of strings")
    ∧ (searchAgg fetch incl p arg s0 d0).slugCache = s0
    ∧ (searchAgg fetch incl p arg s0 d0).descrCache = d0
    ∧ (searchAgg fetch incl p arg s0 d0).trace = [] := by
  by_cases hp : p < 1
  · have hr : searchAgg fetch incl p arg s0 d0
        = { output := "Invalid SEARCH_PAGES_TO_FETCH: must be >= 1",
            slugCache := s0, descrCache := d0, trace := [] } := by
      unfold searchAgg
      rw [if_pos hp]
    rw [hr, if_pos hp]
    exact ⟨rfl, rfl, rfl, rfl⟩
  · have hq : normalizeQueries arg = [] := h.resolve_left hp
    have hr : searchAgg fetch incl p arg s0 d0
        = { output := "Invalid query: provide a non-empty string or list of strings",
            slugCache := s0, descrCache := d0, trace := [] } := by
      unfold searchAgg
      rw [if_neg hp, if_pos hq]
    rw [hr, if_neg hp]
    exact ⟨rfl, rfl, rfl, rfl⟩

/-- Claim C7 witness: a zero page count is rejected with the page-count
message, no request, and untouched caches. -/
theorem claim7_witness :
    (searchAgg witFetchEmpty true 0 (QueryArg.ofList []) [("k", "v")] []).output
      = "Invalid SEARCH_PAGES_TO_FETCH: must be >= 1"
    ∧ (searchAgg witFetchEmpty true 0 (QueryArg.ofList []) [("k", "v")] []).slugCache
      = [("k", "v")]
    ∧ (searchAgg witFetchEmpty true 0 (QueryArg.ofList []) [("k", "v")] []).trace
      = [] := by
  have h := claim7_invalid_input witFetchEmpty true 0 (QueryArg.ofList [])
    [("k", "v")] [] (Or.inl (by decide))
  refine ⟨?_, h.2.1, h.2.2.2⟩
  rw [h.1]
  decide

/-- Claim C8: when a mid-call fetch failure aborts the aggregation, the
returned caches are exactly the caches at the abort point (nothing is rolled
back), every key present at the start of the call is still present, and the
abort step itself wrote nothing: the final collection state is some earlier
state with only the failing request appended to the ghost trace. -/
theorem claim8_cache_persist (fetch : Fetcher) (incl : Bool) (p : Int)
    (arg : QueryArg) (s0 d0 : List (String × String)) (s : SearchState)
    (m : String) (h1 : ¬ p < 1) (h2 : normalizeQueries arg ≠ [])
    (h3 : collectPhase fetch p.toNat (normalizeQueries arg) s0 d0 = (s, some m)) :
    ((searchAgg fetch incl p arg s0 d0).slugCache = s.slugCache
      ∧ (searchAgg fetch incl p arg s0 d0).descrCache = s.descrCache)
    ∧ (∀ k, (alookup s0 k).isSome = true → (alookup s.slugCache k).isSome = true)
    ∧ (∀ k, (alookup d0 k).isSome = true → (alookup s.descrCache k).isSome = true)
    ∧ ∃ (r : String × Option String) (t : SearchState),
        s = { t with trace := t.trace ++ [r] }
        ∧ (errorOf (fetch r.1 r.2)).isSome = true := by
  have hagg : searchAgg fetch incl p arg s0 d0
      = { output := m, slugCache := s.slugCache, descrCache := s.descrCache,
          trace := s.trace } := by
    unfold searchAgg
    rw [if_neg h1, if_neg h2, h3]
  have hfst : (queryLoop fetch p.toNat (normalizeQueries arg)
      { slugCache := s0, descrCache := d0,
        itemsByQuery := (normalizeQueries arg).map (fun q => (q, [])),
        deduped := [], trace := [], processedLog := [] }).1 = s :=
    congrArg Prod.fst h3
  obtain ⟨r, t, hshape, hdisj⟩ :=
    queryLoop_aborted fetch p.toNat (normalizeQueries arg) _ s m h3
  refine ⟨⟨by rw [hagg], by rw [hagg]⟩, ?_, ?_, r, t, hshape, ?_⟩
  · intro k hk
    have := (queryLoop_caches_isSome fetch p.toNat (normalizeQueries arg)
      { slugCache := s0, descrCache := d0,
        itemsByQuery := (normalizeQueries arg).map (fun q => (q, [])),
        deduped := [], trace := [], processedLog := [] } k).1 hk
    rw [hfst] at this
    exact this
  · intro k hk
    have := (queryLoop_caches_isSome fetch p.toNat (normalizeQueries arg)
      { slugCache := s0, descrCache := d0,
        itemsByQuery := (normalizeQueries arg).map (fun q => (q, [])),
        deduped := [], trace := [], processedLog := [] } k).2 hk
    rw [hfst] at this
    exact this
  · rcases hdisj with ⟨c, txt, hf, _⟩ | ⟨e2, hf, _⟩
    · rw [hf]; rfl
    · rw [hf]; rfl

/-- Claim C8 witness: a key cached before a failing call is still present in
the returned slug cache. -/
theorem claim8_witness :
    ((alookup (searchAgg witFetchFail true 5 (QueryArg.ofList [some "a"])
        [("k", "v")] []).slugCache "k").isSome = true) := by
  have h := claim8_cache_persist witFetchFail true 5 (QueryArg.ofList [some "a"])
    [("k", "v")] []
    (collectPhase witFetchFail (5 : Int).toNat
      (normalizeQueries (QueryArg.ofList [some "a"])) [("k", "v")] []).1
    "API Error: 500 - server error" (by decide) (by decide) rfl
  rw [h.1.1]
  exact h.2.1 "k" (by decide)

/-- Claim C9: `link` answers a non-list or empty argument with the single
validation message (and, being a pure reader of the cache, changes nothing);
position by position, an id whose cached slug exists and is non-empty yields
the line with the fixed base URL concatenated with that slug, and an id with
no cached slug (or an empty one) yields the unknown-id line. -/
theorem claim9_link (cache : List (String × String)) (ids : List String) :
    link cache IdsArg.nonList = "Invalid item_ids: provide a non-empty list of ids"
    ∧ link cache (IdsArg.idList [])
      = "Invalid item_ids: provide a non-empty list of ids"
    ∧ (linkRender cache ids).length = ids.length
    ∧ (∀ (k : Nat) (v : String) (h : k < ids.length),
        alookup cache (ids.get ⟨k, h⟩) = some v → v ≠ "" →
        (linkRender cache ids).getD k ""
          = "- `" ++ ids.get ⟨k, h⟩ ++ "`: " ++ ITEM_BASE_URL ++ v)
    ∧ (∀ (k : Nat) (h : k < ids.length),
        (alookup cache (ids.get ⟨k, h⟩) = none
          ∨ alookup cache (ids.get ⟨k, h⟩) = some "") →
        (linkRender cache ids).getD k ""
          = "- `" ++ ids.get ⟨k, h⟩
              ++ "`: Unknown id. Run `search` first to populate the cache.") := by
  refine ⟨rfl, rfl, linkRender_length cache ids, ?_, ?_⟩
  · intro k v h hl hv
    rw [linkRender_getD cache ids k h, hl]
    exact if_neg hv
  · intro k h hl
    rcases hl with hl | hl
    · rw [linkRender_getD cache ids k h, hl]
    · rw [linkRender_getD cache ids k h, hl]
      exact if_pos rfl

/-- Claim C9 witness: with one cached id out of two requested, the first line
carries the base URL and slug and the second the unknown-id message. -/
theorem claim9_witness :
    (linkRender [("7", "sx")] ["7", "9"]).length = 2
    ∧ (linkRender [("7", "sx")] ["7", "9"]).getD 0 ""
      = "- `7`: " ++ ITEM_BASE_URL ++ "sx"
    ∧ (linkRender [("7", "sx")] ["7", "9"]).getD 1 ""
      = "- `9`: Unknown id. Run `search` first to populate the cache." := by
  have h := claim9_link [("7", "sx")] ["7", "9"]
  refine ⟨h.2.2.1, ?_, ?_⟩
  · have h4 := h.2.2.2.1 0 "sx" (by decide) (by decide) (by decide)
    rw [h4]
    decide
  · have h5 := h.2.2.2.2 1 (by decide) (Or.inl (by decide))
    rw [h5]
    decide

/-- Claim C10 counterexample: the blank bare string "" is accepted and even
queried (one request is issued for it), while the singleton list containing
"" is rejected as invalid input — so the two calls do not behave alike, and
the claim fails for blank bare strings. -/
theorem claim10_counterexample :
    (searchAgg witFetchEmpty true 5 (QueryArg.str "") [] []).output
      ≠ (searchAgg witFetchEmpty true 5 (QueryArg.ofList [some ""]) [] []).output
    ∧ (searchAgg witFetchEmpty true 5 (QueryArg.ofList [some ""]) [] []).output
      = "Invalid query: provide a non-empty string or list of strings"
    ∧ (searchAgg witFetchEmpty true 5 (QueryArg.str "") [] []).trace
      = [("", none)] := by
  decide

/-- Claim C10 (amended): every bare string is accepted rather than rejected,
and for every bare string that is not blank the call behaves exactly as if
the singleton list containing that string had been passed; a blank bare
string is still accepted but proceeds as a query, unlike its rejected
singleton-list counterpart. -/
theorem claim10_amended (fetch : Fetcher) (incl : Bool) (p : Int) (s : String)
    (s0 d0 : List (String × String)) (h : isBlank s = false) :
    searchAgg fetch incl p (QueryArg.str s) s0 d0
      = searchAgg fetch incl p (QueryArg.ofList [some s]) s0 d0 := by
  have hq : normalizeQueries (QueryArg.ofList [some s]) = [s] := by
    simp [normalizeQueries, h]
  have hq2 : normalizeQueries (QueryArg.str s) = [s] := rfl
  unfold searchAgg
  rw [hq, hq2]

/-- Claim C10 witness: for the non-blank bare string "a" the two call shapes
agree exactly. -/
theorem claim10_witness :
    searchAgg witFetchEmpty true 5 (QueryArg.str "a") [] []
      = searchAgg witFetchEmpty true 5 (QueryArg.ofList [some "a"]) [] [] :=
  claim10_amended witFetchEmpty true 5 "a" [] [] (by decide)

end Marketplace
